import Mathlib

/-!
Verification development for the libclub replication engine (`src/club/hub.cpp`).

The definitions below are a shallow embedding of the hub's data model and
operations.  `PeerId`s are modelled as `Nat` (128-bit uuids with total order),
`Timestamp`s as `Nat`, sets (`boost::container::flat_set`, `std::set`) as
sorted duplicate-free `List Nat`, and ordered maps (`std::map`) as association
lists sorted by key.  Network effects and application callbacks are modelled as
an `Event` trace; destruction of the hub during a callback is modelled by an
oracle (`List Bool`, one entry consumed per callback invocation).

The headers `club/log.h`, `seen_messages.h`, `broadcast_routing_table.h` and
`protocol_versions.h` are not part of the sources; the corresponding
definitions (`Log` operations, `SeenMessages`, `NET_PROTOCOL_VERSION`) are
modelled from the specification and marked as such.
-/

namespace Club

/-- `MessageId` is the pair `(Timestamp, PeerId)` (hub.cpp / message.h). -/
structure MessageId where
  ts : Nat
  peer : Nat
deriving DecidableEq, Repr

/-- Lexicographic order on `MessageId`: the originator id breaks timestamp
ties (mirrors `operator<` on `(Timestamp, uuid)` pairs). -/
def MessageId.Lt (a b : MessageId) : Prop :=
  a.ts < b.ts ∨ (a.ts = b.ts ∧ a.peer < b.peer)

instance (a b : MessageId) : Decidable (MessageId.Lt a b) := by
  unfold MessageId.Lt; exact inferInstance

/-- `a ≤ b` on message ids. -/
def MessageId.Le (a b : MessageId) : Prop := MessageId.Lt a b ∨ a = b

instance (a b : MessageId) : Decidable (MessageId.Le a b) := by
  unfold MessageId.Le; exact inferInstance

/-- Insert into a sorted duplicate-free list of peer ids (`flat_set::insert`). -/
def insertSorted (x : Nat) : List Nat → List Nat
  | [] => [x]
  | y :: ys =>
    if x < y then x :: y :: ys
    else if x = y then y :: ys
    else y :: insertSorted x ys

/-- Insert into a sorted duplicate-free list of message ids. -/
def insertMid (x : MessageId) : List MessageId → List MessageId
  | [] => [x]
  | y :: ys =>
    if MessageId.Lt x y then x :: y :: ys
    else if x = y then y :: ys
    else y :: insertMid x ys

/-- Extensional equality of peer-id sets (comparison of `flat_set` values). -/
def eqSet (a b : List Nat) : Bool :=
  a.all (fun x => b.contains x) && b.all (fun x => a.contains x)

/-- `std::set_difference` on sorted peer-id sets (struct `Diff` in hub.cpp). -/
def setDiff (a b : List Nat) : List Nat :=
  a.filter (fun x => !(b.contains x))

/-- Ack payload carried by entry-producing messages and `Ack` messages
(message.h): the acked id, its predecessor in the acker's log, and the
acker's connected-neighbor set. -/
structure AckData where
  msgId : MessageId
  predId : MessageId
  neighbors : List Nat
deriving DecidableEq, Repr

/-- Message header (message.h): originator, Lamport timestamp, the
originator's config id at send time, and the set of peers that already
forwarded the message. -/
structure Header where
  originator : Nat
  timeStamp : Nat
  configId : MessageId
  visited : List Nat
deriving DecidableEq, Repr

/-- The four wire message kinds handled by `hub::on_recv_raw`. -/
inductive Msg where
  | fuse (hd : Header) (ad : AckData) (target : Nat)
  | userData (hd : Header) (ad : AckData) (data : List Nat)
  | portOffer (hd : Header) (ad : AckData) (addressor : Nat) (internalPort externalPort : Nat)
  | ackMsg (hd : Header) (ad : AckData)
deriving DecidableEq, Repr

/-- The header of a message. -/
def headerOf : Msg → Header
  | .fuse hd _ _ => hd
  | .userData hd _ _ => hd
  | .portOffer hd _ _ _ _ => hd
  | .ackMsg hd _ => hd

/-- `original_poster(msg)`. -/
def originatorOf (m : Msg) : Nat := (headerOf m).originator

/-- `message_id(msg) = (header.time_stamp, header.original_poster)`. -/
def messageId (m : Msg) : MessageId := ⟨(headerOf m).timeStamp, (headerOf m).originator⟩

/-- The visited set of a message. -/
def visitedOf (m : Msg) : List Nat := (headerOf m).visited

/-- Replace the visited set of a message. -/
def withVisited (m : Msg) (v : List Nat) : Msg :=
  match m with
  | .fuse hd ad t => .fuse {hd with visited := v} ad t
  | .userData hd ad d => .userData {hd with visited := v} ad d
  | .portOffer hd ad a i e => .portOffer {hd with visited := v} ad a i e
  | .ackMsg hd ad => .ackMsg {hd with visited := v} ad

/-- Is the message a membership (`Fuse`) message? -/
def isFuseMsg : Msg → Bool
  | .fuse _ _ _ => true
  | _ => false

/-- Per-peer state kept by the hub's peer table: connectivity flag and the
remote ports learnt from a `PortOffer` (transport handle and address
bookkeeping are external collaborators and elided). -/
structure NodeSt where
  connected : Bool
  ports : Option (Nat × Nat)
deriving DecidableEq, Repr

/-- A pending log entry.  `msg?` is `none` for a placeholder entry created by
`apply_ack` before the message body arrived.  `acks` maps each acker to its
ack payload (sorted by acker id).  Modelled from the spec (club/log.h is not
in the sources): the entry created for a received message seeds `acks` with
the originator's embedded self-ack. -/
structure LogEntry where
  mid : MessageId
  msg? : Option Msg
  acks : List (Nat × AckData)
deriving DecidableEq, Repr

/-- Entry message type test used by the commit driver. -/
def LogEntry.isFuse (e : LogEntry) : Bool :=
  match e.msg? with
  | some (.fuse _ _ _) => true
  | _ => false

/-- The set of ackers of an entry (keys of `acks`, sorted). -/
def LogEntry.ackSet (e : LogEntry) : List Nat := e.acks.map (fun p => p.1)

/-- `entry.acked_by_quorum()`: the acks are non-empty and every ack's
neighbor set equals the ack set (the ackers form a clique); the resulting
quorum is the ack set (spec 4.3; the ack-aggregation code is not in src/). -/
def ackedByQuorum (e : LogEntry) : Bool :=
  !e.acks.isEmpty && e.acks.all (fun p => eqSet p.2.neighbors e.ackSet)

/-- `entry.acked_by_quorum(live_nodes)`: additionally the quorum equals
`live_nodes`. -/
def ackedByQuorumLive (e : LogEntry) (live : List Nat) : Bool :=
  ackedByQuorum e && eqSet e.ackSet live

/-- `entry.predecessors`: ordered set of predecessor ids discovered through
the acks (spec 4.2: an ordered map keyed by `MessageId`). -/
def LogEntry.predecessors (e : LogEntry) : List MessageId :=
  e.acks.foldl (fun acc p => insertMid p.2.predId acc) []

/-- `config_id(entry.message)`: the config id carried in the stored message's
header (placeholders never reach the commit driver's uses of it; they yield
the genesis id). -/
def entryConfigId (e : LogEntry) : MessageId :=
  match e.msg? with
  | some m => (headerOf m).configId
  | none => ⟨0, 0⟩

/-- Insert (or overwrite) an ack into a sorted ack map (`acks[acker] = data`). -/
def insertAck (k : Nat) (v : AckData) : List (Nat × AckData) → List (Nat × AckData)
  | [] => [(k, v)]
  | (k', v') :: r =>
    if k < k' then (k, v) :: (k', v') :: r
    else if k = k' then (k, v) :: r
    else (k', v') :: insertAck k v r

/-- Fold a freshly constructed entry into an existing one with the same id
(`Log::insert_entry` is idempotent on the message id and folds the carried
ack payload into the existing, possibly placeholder, entry; modelled from
spec 4.2). -/
def mergeEntry (old new : LogEntry) : LogEntry :=
  { mid := old.mid
    msg? := old.msg? <|> new.msg?
    acks := new.acks.foldl (fun a p => insertAck p.1 p.2 a) old.acks }

/-- Insert an entry into the id-sorted entry list, merging on an equal id. -/
def insertEntry (e : LogEntry) : List LogEntry → List LogEntry
  | [] => [e]
  | e' :: r =>
    if MessageId.Lt e.mid e'.mid then e :: e' :: r
    else if e.mid = e'.mid then mergeEntry e' e :: r
    else e' :: insertEntry e r

/-- The message log (spec 4.2 / club/log.h, not in src/): the ordered pending
entries plus the last committed id, the peer that produced it, and the id of
the last committed fuse. -/
structure Log where
  entries : List LogEntry
  lastCommitted : MessageId
  lastCommitOp : Nat
  lastFuseCommit : MessageId
deriving DecidableEq, Repr

/-- `Log::apply_ack(acker, ack_data)` on the entry list: update the addressed
entry, creating a placeholder carrying only the ack when the body has not yet
been received (modelled from spec 4.2). -/
def applyAckList (acker : Nat) (ad : AckData) : List LogEntry → List LogEntry
  | [] => [⟨ad.msgId, none, [(acker, ad)]⟩]
  | e :: r =>
    if e.mid = ad.msgId then { e with acks := insertAck acker ad e.acks } :: r
    else if MessageId.Lt ad.msgId e.mid then ⟨ad.msgId, none, [(acker, ad)]⟩ :: e :: r
    else e :: applyAckList acker ad r

/-- `Log::apply_ack`. -/
def applyAck (log : Log) (acker : Nat) (ad : AckData) : Log :=
  { log with entries := applyAckList acker ad log.entries }

/-- `Log::get_predecessor_time(mid)`: the greatest entry id strictly below
`mid`, falling back to `last_committed` (modelled from spec 4.2). -/
def getPredecessorTime (log : Log) (mid : MessageId) : MessageId :=
  match (log.entries.filter (fun e => decide (MessageId.Lt e.mid mid))).getLast? with
  | some e => e.mid
  | none => log.lastCommitted

/-- `Log::find_highest_fuse_entry()`: the greatest-id fuse entry, if any. -/
def findHighestFuseEntry (log : Log) : Option LogEntry :=
  log.entries.reverse.find? (fun e => e.isFuse)

/-- The tail-first scan of `commit_what_was_seen_by_everyone`: the most
recent fuse entry whose ackers form a quorum. -/
def findLastCommittableFuse (entries : List LogEntry) : Option LogEntry :=
  entries.reverse.find? (fun e => e.isFuse && ackedByQuorum e)

/-- Does an entry with the given id exist? -/
def containsMid (entries : List LogEntry) (mid : MessageId) : Bool :=
  entries.any (fun e => decide (e.mid = mid))

/-- The seen-message filter (spec 4.1; seen_messages.h is not in src/,
modelled from the spec): explicitly observed ids with timestamps at or above
`threshold`, while every message with a timestamp strictly below `threshold`
is considered seen (the collapsed history). -/
structure SeenMessages where
  threshold : Nat
  seen : List MessageId
deriving DecidableEq, Repr

/-- `SeenMessages::is_in(mid)`. -/
def seenIsIn (s : SeenMessages) (mid : MessageId) : Bool :=
  decide (mid.ts < s.threshold) || s.seen.any (fun m => decide (m = mid))

/-- `SeenMessages::insert(mid)`. -/
def seenInsert (mid : MessageId) (s : SeenMessages) : SeenMessages :=
  { s with seen := insertMid mid s.seen }

/-- `SeenMessages::seen_everything_up_to(mid)`: collapse history below
`mid.timestamp`. -/
def seenEverythingUpTo (mid : MessageId) (s : SeenMessages) : SeenMessages :=
  let t := max s.threshold mid.ts
  { threshold := t, seen := s.seen.filter (fun m => !decide (m.ts < t)) }

/-- `SeenMessages::forget_messages_from_user(peer)`. -/
def forgetMessagesFromUser (p : Nat) (s : SeenMessages) : SeenMessages :=
  { s with seen := s.seen.filter (fun m => !decide (m.peer = p)) }

/-- The hub state: own id, the peer table, the log, the Lamport clock, the
configurations map (`ConfigId → quorum`), and the seen filter.  The broadcast
routing table (a separate component, not in src/) carries no state the
claims observe and is passed explicitly where needed. -/
structure Hub where
  id : Nat
  nodes : List (Nat × NodeSt)
  log : Log
  timeStamp : Nat
  configs : List (MessageId × List Nat)
  seen : SeenMessages
deriving DecidableEq, Repr

/-- `_configs.emplace(k, v)`: sorted insert keeping an existing binding. -/
def insertConfig (k : MessageId) (v : List Nat) :
    List (MessageId × List Nat) → List (MessageId × List Nat)
  | [] => [(k, v)]
  | (k', v') :: r =>
    if MessageId.Lt k k' then (k, v) :: (k', v') :: r
    else if k = k' then (k', v') :: r
    else (k', v') :: insertConfig k v r

/-- `*_configs.rbegin()`: the current configuration (the map is never empty). -/
def currentConfig (h : Hub) : MessageId × List Nat :=
  h.configs.getLastD (⟨0, 0⟩, [])

/-- The current config id. -/
def lastConfigId (h : Hub) : MessageId := (currentConfig h).1

/-- `_configs.count(cid) ≠ 0`. -/
def configsHas (h : Hub) (cid : MessageId) : Bool :=
  h.configs.any (fun p => decide (p.1 = cid))

/-- `_nodes.count(p) ≠ 0`. -/
def nodesHas (h : Hub) (p : Nat) : Bool :=
  h.nodes.any (fun q => decide (q.1 = p))

/-- `find_node(p)`. -/
def nodeLookup (h : Hub) (p : Nat) : Option NodeSt :=
  (h.nodes.find? (fun q => decide (q.1 = p))).map (fun q => q.2)

/-- Sorted insert into the peer table keeping an existing binding
(`std::map::insert`). -/
def insertNodeList (p : Nat) (st : NodeSt) :
    List (Nat × NodeSt) → List (Nat × NodeSt)
  | [] => [(p, st)]
  | (k, v) :: r =>
    if p < k then (p, st) :: (k, v) :: r
    else if p = k then (k, v) :: r
    else (k, v) :: insertNodeList p st r

/-- `insert_node(id)`: a disconnected placeholder peer. -/
def insertNodeDisconnected (h : Hub) (p : Nat) : Hub :=
  { h with nodes := insertNodeList p ⟨false, none⟩ h.nodes }

/-- `insert_node(id, socket)`: a connected peer. -/
def insertNodeConnected (h : Hub) (p : Nat) : Hub :=
  { h with nodes := insertNodeList p ⟨true, none⟩ h.nodes }

/-- `node->assign_socket(socket)`: mark an existing peer connected. -/
def setNodeConnected (h : Hub) (p : Nat) : Hub :=
  { h with nodes := h.nodes.map (fun q => if q.1 = p then (q.1, { q.2 with connected := true }) else q) }

/-- `op.set_remote_port(internal, external)`. -/
def setNodePorts (h : Hub) (p : Nat) (ip ep : Nat) : Hub :=
  { h with nodes := h.nodes.map (fun q => if q.1 = p then (q.1, { q.2 with ports := some (ip, ep) }) else q) }

/-- `hub::neighbors()`: self plus all connected peers. -/
def neighbors (h : Hub) : List Nat :=
  h.nodes.foldl (fun acc q => if q.1 ≠ h.id ∧ q.2.connected = true then insertSorted q.1 acc else acc)
    [h.id]

/-- Errors surfaced through the fuse completion. -/
inductive FuseErr where
  | transportError
  | connectionRefused
  | noProtocolOption
  | alreadyConnected
deriving DecidableEq, Repr

/-- Observable effects of the hub: reliable and unreliable sends, socket
closure, and the application callbacks. -/
inductive Event where
  | sendTo (peer : Nat) (m : Msg)
  | sendUnreliable (peer : Nat) (payload : List Nat)
  | closeSocket
  | onFused (err : Option FuseErr) (peer : Nat)
  | onInsert (peers : List Nat)
  | onRemove (peers : List Nat)
  | onReceive (peer : Nat) (data : List Nat)
  | onReceiveUnreliable (peer : Nat) (payload : List Nat)
  | dropped (mid : MessageId)
  | committed (mid : MessageId)
deriving DecidableEq, Repr

/-- Is the event one of the application callbacks invoked by the commit
driver (`on_insert`, `on_remove`, `on_receive`)? -/
def isCallbackEvent : Event → Bool
  | .onInsert _ => true
  | .onRemove _ => true
  | .onReceive _ _ => true
  | _ => false

/-- The last event of a trace. -/
def lastEvent : List Event → Option Event
  | [] => none
  | [e] => some e
  | _ :: e :: r => lastEvent (e :: r)

/-- Consume one answer from the destruction oracle (`*was_destroyed` after a
callback); an exhausted oracle means the hub survived. -/
def popOrc : List Bool → Bool × List Bool
  | [] => (false, [])
  | b :: r => (b, r)

/-- The hub constructor: self peer record, genesis config `(0, self)` with
quorum `{self}`, empty log and seen filter (hub.cpp:160). -/
def initHub (id : Nat) : Hub :=
  { id := id
    nodes := [(id, ⟨false, none⟩)]
    log := { entries := [], lastCommitted := ⟨0, 0⟩, lastCommitOp := id, lastFuseCommit := ⟨0, 0⟩ }
    timeStamp := 0
    configs := [(⟨0, id⟩, [id])]
    seen := { threshold := 0, seen := [] } }

/-- `hub::broadcast(msg)` (hub.cpp:682): enqueue the encoded message to every
peer that is not self, is connected, and is not in the message's visited
set. -/
def broadcastEvents (h : Hub) (m : Msg) : List Event :=
  h.nodes.filterMap (fun q =>
    if q.1 ≠ h.id ∧ q.2.connected = true ∧ (visitedOf m).contains q.1 = false
    then some (.sendTo q.1 m) else none)

/-- `hub::add_log_entry(msg)` (hub.cpp:607): a message whose id is at or
below `last_committed` is rejected unless it is a `Fuse` (assertion in debug,
early return in release); otherwise the entry is inserted.  `Ack` messages
never reach this function. -/
def addLogEntry (h : Hub) (m : Msg) : Hub :=
  match m with
  | .ackMsg _ _ => h
  | _ =>
    if MessageId.Le (messageId m) h.log.lastCommitted ∧ isFuseMsg m = false then h
    else
      let e : LogEntry := ⟨messageId m, some m, [(originatorOf m, (match m with
        | .fuse _ ad _ => ad
        | .userData _ ad _ => ad
        | .portOffer _ ad _ _ _ => ad
        | .ackMsg _ ad => ad))]⟩
      { h with log := { h.log with entries := insertEntry e h.log.entries } }

/-- `hub::construct_ack(msg_id)` (hub.cpp:668): build an `Ack` for `msg_id`
(bumping the clock for its header) and apply it to the own log, since a peer
never receives its own message back. -/
def constructAck (h : Hub) (mid : MessageId) : Hub × Msg :=
  let pred := getPredecessorTime h.log mid
  let ts' := h.timeStamp + 1
  let ad : AckData := ⟨mid, pred, neighbors h⟩
  let m : Msg := .ackMsg ⟨h.id, ts', lastConfigId h, [h.id]⟩ ad
  ({ h with timeStamp := ts', log := applyAck h.log h.id ad }, m)

/-- `hub::construct_ackable<Fuse>(target)` (hub.cpp:642). -/
def constructAckableFuse (h : Hub) (target : Nat) : Hub × Msg :=
  let ts' := h.timeStamp + 1
  let mid : MessageId := ⟨ts', h.id⟩
  let ad : AckData := ⟨mid, getPredecessorTime h.log mid, neighbors h⟩
  ({ h with timeStamp := ts' }, .fuse ⟨h.id, ts', lastConfigId h, [h.id]⟩ ad target)

/-- `hub::construct_ackable<UserData>(data)`. -/
def constructAckableUserData (h : Hub) (data : List Nat) : Hub × Msg :=
  let ts' := h.timeStamp + 1
  let mid : MessageId := ⟨ts', h.id⟩
  let ad : AckData := ⟨mid, getPredecessorTime h.log mid, neighbors h⟩
  ({ h with timeStamp := ts' }, .userData ⟨h.id, ts', lastConfigId h, [h.id]⟩ ad data)

/-- Outcome of the per-entry decision in the head-first walk of
`commit_what_was_seen_by_everyone` (hub.cpp:513-574): stop the walk, erase
the entry without delivery, or commit it. -/
inductive StepKind where
  | stop
  | drop
  | commitIt
deriving DecidableEq, Repr

/-- The predecessor check (hub.cpp:557-574): scanning the entry's
predecessors from the greatest down, find the first that equals
`last_committed` or, failing that, stop at the greatest one as soon as the
entry's config id is a known configuration; the walk breaks when the found
predecessor differs from `last_committed` and exceeds `last_fuse_commit`. -/
def predStop (h : Hub) (e : LogEntry) : Bool :=
  let preds := e.predecessors
  if preds.isEmpty then false
  else
    match preds.reverse.find?
        (fun i => decide (i = h.log.lastCommitted) || configsHas h (entryConfigId e)) with
    | none => false
    | some i =>
      decide (i ≠ h.log.lastCommitted) && decide (MessageId.Lt h.log.lastFuseCommit i)

/-- The branch taken for one entry of the head-first walk (hub.cpp:522-574):
a fuse below the last committable fuse is dropped when not acked by the live
nodes; a fuse above it (or any fuse when no committable fuse exists) stops
the walk; everything else goes through the predecessor check and is then
committed. -/
def stepKind (h : Hub) (lcf : Option MessageId) (live : List Nat) (e : LogEntry) : StepKind :=
  if e.isFuse then
    match lcf with
    | none => .stop
    | some fid =>
      if MessageId.Lt e.mid fid then
        if ackedByQuorumLive e live = false then .drop
        else if predStop h e then .stop else .commitIt
      else if e.mid = fid then
        if predStop h e then .stop else .commitIt
      else .stop
  else
    if ackedByQuorumLive e live = false then .stop
    else if predStop h e then .stop else .commitIt

/-- The callback section of `on_commit_fuse` (hub.cpp:386-396): `on_insert`
first when peers were added, then `on_remove` when peers were removed; each
invocation re-reads the destruction flag (the oracle) and aborts when it was
set. -/
def fuseCallbackEvents (added removed : List Nat) (orc : List Bool) :
    List Event × List Bool × Bool :=
  if added.isEmpty then
    if removed.isEmpty then ([], orc, false)
    else
      let p := popOrc orc
      ([.onRemove removed], p.2, p.1)
  else
    let p1 := popOrc orc
    if p1.1 then ([.onInsert added], p1.2, true)
    else if removed.isEmpty then ([.onInsert added], p1.2, false)
    else
      let p2 := popOrc p1.2
      ([.onInsert added, .onRemove removed], p2.2, p2.1)

/-- `hub::on_commit_fuse(entry)` (hub.cpp:366): when the entry is acked by a
quorum, install the ack-derived quorum as the new configuration, purge the
removed peers from the peer table and the seen filter, then notify the
application (the broadcast routing table recalculation carries no state the
claims observe). -/
def onCommitFuse (h : Hub) (e : LogEntry) (orc : List Bool) :
    Hub × List Event × List Bool × Bool :=
  if ackedByQuorum e = true then
    let prevQ := (currentConfig h).2
    let newQ := e.ackSet
    let removed := setDiff prevQ newQ
    let added := setDiff newQ prevQ
    let h1 := { h with configs := insertConfig e.mid newQ h.configs }
    let h2 := removed.foldl
      (fun acc r =>
        { acc with
          seen := forgetMessagesFromUser r acc.seen
          nodes := acc.nodes.filter (fun q => decide (q.1 ≠ r)) }) h1
    let c := fuseCallbackEvents added removed orc
    (h2, c.1, c.2.1, c.2.2)
  else (h, [], orc, false)

/-- `hub::commit(entry)` (hub.cpp:932): dispatch the delivery on the message
kind.  `UserData` is delivered only when the originator is still a known
peer; `PortOffer` delivery is a no-op in release builds. -/
def commitDeliver (h : Hub) (e : LogEntry) (orc : List Bool) :
    Hub × List Event × List Bool × Bool :=
  match e.msg? with
  | some (.fuse _ _ _) => onCommitFuse h e orc
  | some (.userData hd _ data) =>
    if nodesHas h hd.originator then
      let p := popOrc orc
      (h, [.onReceive hd.originator data], p.2, p.1)
    else (h, [], orc, false)
  | some (.portOffer _ _ _ _ _) => (h, [], orc, false)
  | some (.ackMsg _ _) => (h, [], orc, false)
  | none => (h, [], orc, false)

/-- The state update of the erase-without-delivery branch (hub.cpp:531-536):
`last_committed` and `last_commit_op` take the dropped entry's id and
originator. -/
def dropTarget (h : Hub) (e : LogEntry) : Hub :=
  { h with log := { h.log with lastCommitted := e.mid, lastCommitOp := e.mid.peer } }

/-- The state updates performed when the walk commits entry `e`
(hub.cpp:583-592): collapse the seen filter up to `e`, record
`last_fuse_commit` when `e` is a fuse, and set
`last_committed`/`last_commit_op`. -/
def commitTarget (h : Hub) (e : LogEntry) : Hub :=
  let h1 := { h with seen := seenEverythingUpTo e.mid h.seen }
  let h2 := if e.isFuse then { h1 with log := { h1.log with lastFuseCommit := e.mid } } else h1
  { h2 with log := { h2.log with lastCommitted := e.mid, lastCommitOp := e.mid.peer } }

/-- The head-first walk of `commit_what_was_seen_by_everyone`
(hub.cpp:509-598) over the pending entries: returns the updated hub, the
entries left pending, the event trace, the rest of the oracle, and whether a
callback destroyed the hub.  A dropped entry bumps `last_committed` to its id
and is erased without delivery; a committed entry is erased, updates the
state via `commitTarget` and is delivered; once the last committable fuse
itself is committed the walk continues with no committable fuse. -/
def commitWalk (h : Hub) (lcf : Option MessageId) (live : List Nat) (orc : List Bool) :
    List LogEntry → Hub × List LogEntry × List Event × List Bool × Bool
  | [] => (h, [], [], orc, false)
  | e :: rest =>
    match stepKind h lcf live e with
    | .stop => (h, e :: rest, [], orc, false)
    | .drop =>
      let r := commitWalk (dropTarget h e) lcf live orc rest
      (r.1, r.2.1, .dropped e.mid :: r.2.2.1, r.2.2.2)
    | .commitIt =>
      let lcf' := if lcf = some e.mid then none else lcf
      let d := commitDeliver (commitTarget h e) e orc
      if d.2.2.2 then (d.1, rest, .committed e.mid :: d.2.1, d.2.2.1, true)
      else
        let r := commitWalk d.1 lcf' live d.2.2.1 rest
        (r.1, r.2.1, .committed e.mid :: d.2.1 ++ r.2.2.1, r.2.2.2)

/-- `hub::commit_what_was_seen_by_everyone()` (hub.cpp:482): find the most
recent committable fuse `F` tail-first, let the live nodes be `F`'s quorum
(or the current config's quorum when `F` is absent), then walk the log
head-first. -/
def commitPass (h : Hub) (orc : List Bool) : Hub × List Event × List Bool × Bool :=
  let F := findLastCommittableFuse h.log.entries
  let live := match F with
    | some f => f.ackSet
    | none => (currentConfig h).2
  let lcf := F.map (fun f => f.mid)
  let r := commitWalk h lcf live orc h.log.entries
  ({ r.1 with log := { r.1.log with entries := r.2.1 } }, r.2.2.1, r.2.2.2.1, r.2.2.2.2)

/-- The kind-specific processors `hub::process` (hub.cpp:289-327).  A `Fuse`
is logged, self-acked when it is at or above the highest pending fuse, and
triggers a commit pass; `UserData` is self-acked and logged; a `PortOffer`
records the remote ports when addressed to self; an `Ack` is folded into the
log. -/
def processMsg (h : Hub) (m : Msg) (orc : List Bool) :
    Hub × List Event × List Bool × Bool :=
  match m with
  | .ackMsg hd ad => ({ h with log := applyAck h.log hd.originator ad }, [], orc, false)
  | .portOffer hd _ addr ip ep =>
    if addr = h.id then (setNodePorts h hd.originator ip ep, [], orc, false)
    else (h, [], orc, false)
  | .userData _ _ _ =>
    let c := constructAck h (messageId m)
    let bevs := broadcastEvents c.1 c.2
    (addLogEntry c.1 m, bevs, orc, false)
  | .fuse _ _ _ =>
    let h1 := addLogEntry h m
    let doAck : Bool := match findHighestFuseEntry h1.log with
      | some fe => decide (MessageId.Le fe.mid (messageId m))
      | none => true
    if doAck then
      let c := constructAck h1 (messageId m)
      let bevs := broadcastEvents c.1 c.2
      let r := commitPass c.1 orc
      (r.1, bevs ++ r.2.1, r.2.2.1, r.2.2.2)
    else (h1, [], orc, false)

/-- The state updates of `hub::on_recv` performed between the seen check and
the self-originator check (hub.cpp:422-429): record the id as seen, advance
the Lamport clock, and create a disconnected placeholder peer for an unknown
originator. -/
def recvPre (h : Hub) (m : Msg) : Hub :=
  let h1 := { h with seen := seenInsert (messageId m) h.seen }
  let h2 := { h1 with timeStamp := max h1.timeStamp (headerOf m).timeStamp }
  if nodesHas h2 (originatorOf m) then h2 else insertNodeDisconnected h2 (originatorOf m)

/-- Add self to a received message's visited set (hub.cpp:410). -/
def withSelfVisited (h : Hub) (m : Msg) : Msg :=
  withVisited m (insertSorted h.id (visitedOf m))

/-- `hub::on_recv(proxy, msg)` (hub.cpp:400): insert self into the visited
set, drop already-seen messages, record the id, advance the clock, ensure a
peer record, drop own messages returned by a peer, rebroadcast, process, and
run the commit driver. -/
def onRecv (h : Hub) (m : Msg) (orc : List Bool) :
    Hub × List Event × List Bool × Bool :=
  let m' := withSelfVisited h m
  if seenIsIn h.seen (messageId m') then (h, [], orc, false)
  else
    let h2 := recvPre h m'
    if originatorOf m' = h.id then (h2, [], orc, false)
    else
      let bevs := broadcastEvents h2 m'
      let p := processMsg h2 m' orc
      if p.2.2.2 then (p.1, bevs ++ p.2.1, p.2.2.1, true)
      else
        let r := commitPass p.1 p.2.2.1
        (r.1, bevs ++ p.2.1 ++ r.2.1, r.2.2.1, r.2.2.2)

/-- The network protocol version (protocol_versions.h is not in src/;
modelled from the spec, the concrete value is immaterial). -/
def NET_PROTOCOL_VERSION : Nat := 1

/-- The handshake-reply continuation of `hub::fuse` (hub.cpp:195-251),
driven by the exchange outcome: a transport error, a decode failure, a
protocol-version mismatch or a self-id each close the socket and notify the
completion with the corresponding error; on success the peer is connected
(rebinding an existing record or inserting a new one), a `Fuse` for it is
constructed, broadcast and logged, the completion is notified, and the
commit driver runs. -/
def fuseHandshake (h : Hub) (transportErr : Bool) (decoded : Option (Nat × Nat))
    (orc : List Bool) : Hub × List Event × List Bool × Bool :=
  if transportErr then (h, [.closeSocket, .onFused (some .transportError) 0], orc, false)
  else
    match decoded with
    | none => (h, [.closeSocket, .onFused (some .connectionRefused) 0], orc, false)
    | some (v, hisId) =>
      if v ≠ NET_PROTOCOL_VERSION then
        (h, [.closeSocket, .onFused (some .noProtocolOption) 0], orc, false)
      else if hisId = h.id then
        (h, [.closeSocket, .onFused (some .alreadyConnected) 0], orc, false)
      else
        let h1 := if nodesHas h hisId then setNodeConnected h hisId else insertNodeConnected h hisId
        let c := constructAckableFuse h1 hisId
        let bevs := broadcastEvents c.1 c.2
        let h3 := addLogEntry c.1 c.2
        let p := popOrc orc
        if p.1 then (h3, bevs ++ [.onFused none hisId], p.2, true)
        else
          let r := commitPass h3 p.2
          (r.1, bevs ++ [.onFused none hisId] ++ r.2.1, r.2.2.1, r.2.2.2)

/-- `hub::total_order_broadcast(data)` (hub.cpp:255): construct an ackable
`UserData`, broadcast and log it (the commit pass is posted to the reactor
and runs as a separate `commitPass`). -/
def totalOrderBroadcast (h : Hub) (data : List Nat) : Hub × List Event :=
  let c := constructAckableUserData h data
  let bevs := broadcastEvents c.1 c.2
  (addLogEntry c.1 c.2, bevs)

/-- `hub::node_received_unreliable_broadcast(buffer)` (hub.cpp:740): when the
source id decodes and belongs to a known peer, forward the frame to the
routing table's targets (those that exist and are connected) and surface the
payload; otherwise return silently.  The routing table (a component not in
src/) is passed as the `targets` function. -/
def nodeReceivedUnreliableBroadcast (h : Hub) (src? : Option Nat) (payload : List Nat)
    (targets : Nat → List Nat) : List Event :=
  match src? with
  | none => []
  | some src =>
    if nodesHas h src = false then []
    else
      (targets src).filterMap (fun tid =>
        match nodeLookup h tid with
        | some st => if st.connected then some (.sendUnreliable tid payload) else none
        | none => none)
      ++ [.onReceiveUnreliable src payload]

/-- The self-replacing callback slot (struct `Callback`, hub.cpp:95): `func`
is the stored function (`none` models the empty `std::function`), `wasReset`
the `was_reset` flag. -/
structure CallbackSlot (F : Type) where
  func : Option F
  wasReset : Bool

/-- `Callback::reset(f)` (hub.cpp:111). -/
def CallbackSlot.resetSlot (_s : CallbackSlot F) (g : Option F) : CallbackSlot F :=
  { func := g, wasReset := true }

/-- `Callback::operator()` (hub.cpp:100): clear the flag, move the stored
function onto the stack, invoke it (the invocation may call `reset` any
number of times, modelled by the `resets` list), and move the function back
only when no reset happened during the call. -/
def CallbackSlot.invoke (s : CallbackSlot F) (resets : List (Option F)) : CallbackSlot F :=
  let s0 : CallbackSlot F := { func := none, wasReset := false }
  let s1 := resets.foldl (fun acc g => acc.resetSlot g) s0
  if s1.wasReset then s1 else { s1 with func := s.func }

/-! Concrete run used to settle the monotonicity claim: hub `10` fuses peer
`20`, receives the ack completing the fuse quorum, commits a `UserData` from
`20`, then receives a stale fuse `(3,5)` followed by a committable fuse
`(4,20)` whose commit pass erases the stale fuse. -/

/-- Hub `10` freshly constructed. -/
def c2hub0 : Hub := initHub 10

/-- After a successful outbound fuse with peer `20`. -/
def c2hub1 : Hub := (fuseHandshake c2hub0 false (some (NET_PROTOCOL_VERSION, 20)) []).1

/-- Peer `20`'s ack for the fuse entry `(1,10)`. -/
def c2msgAck : Msg := .ackMsg ⟨20, 2, ⟨0, 20⟩, [20]⟩ ⟨⟨1, 10⟩, ⟨0, 0⟩, [10, 20]⟩

/-- After receiving `c2msgAck`: the fuse `(1,10)` commits, quorum `{10,20}`. -/
def c2hub2 : Hub := (onRecv c2hub1 c2msgAck []).1

/-- A `UserData` from `20` with id `(3,20)`. -/
def c2msgUser : Msg := .userData ⟨20, 3, ⟨1, 10⟩, [20]⟩ ⟨⟨3, 20⟩, ⟨1, 10⟩, [10, 20]⟩ [1, 2, 3]

/-- After receiving and committing the user data: `last_committed = (3,20)`. -/
def c2hub3 : Hub := (onRecv c2hub2 c2msgUser []).1

/-- A stale fuse from peer `5` with id `(3,5) < (3,20)`. -/
def c2msgStaleFuse : Msg := .fuse ⟨5, 3, ⟨0, 5⟩, [5]⟩ ⟨⟨3, 5⟩, ⟨0, 0⟩, [5]⟩ 6

/-- After receiving the stale fuse: it sits in the log, not committable. -/
def c2hub4 : Hub := (onRecv c2hub3 c2msgStaleFuse []).1

/-- A fuse from `20` with id `(4,20)` that becomes committable on receipt. -/
def c2msgFuse4 : Msg := .fuse ⟨20, 4, ⟨1, 10⟩, [20]⟩ ⟨⟨4, 20⟩, ⟨3, 20⟩, [10, 20]⟩ 7

/-- After receiving `c2msgFuse4`: its commit pass erases the stale fuse and
assigns `last_committed = (3,5)`, below the previous value `(3,20)`. -/
def c2hub5 : Hub := (onRecv c2hub4 c2msgFuse4 []).1


/-- A fuse entry used as concrete input for the commit-walk case split:
id `(3,5)`, acked only by its originator, hence not acked by any quorum. -/
def c1entry : LogEntry :=
  ⟨⟨3, 5⟩, some (.fuse ⟨5, 3, ⟨0, 5⟩, [5, 10]⟩ ⟨⟨3, 5⟩, ⟨0, 0⟩, [5]⟩ 6),
   [(5, ⟨⟨3, 5⟩, ⟨0, 0⟩, [5]⟩)]⟩

/-- A committable `UserData` entry from peer `20` (both members of the
current quorum acked it with matching neighbor sets). -/
def c7entry : LogEntry :=
  ⟨⟨1, 20⟩, some (.userData ⟨20, 1, ⟨0, 10⟩, [20]⟩ ⟨⟨1, 20⟩, ⟨0, 0⟩, [10, 20]⟩ [5]),
   [(10, ⟨⟨1, 20⟩, ⟨0, 0⟩, [10, 20]⟩), (20, ⟨⟨1, 20⟩, ⟨0, 0⟩, [10, 20]⟩)]⟩

/-- A hub whose next commit pass delivers `c7entry` to `on_receive`. -/
def c7hub : Hub :=
  { initHub 10 with
    nodes := [(10, ⟨false, none⟩), (20, ⟨true, none⟩)]
    configs := [(⟨0, 10⟩, [10, 20])]
    log := { entries := [c7entry], lastCommitted := ⟨0, 0⟩, lastCommitOp := 10,
             lastFuseCommit := ⟨0, 0⟩ } }

/-- A `UserData` message originated by the local peer `10` itself. -/
def c3msg : Msg := .userData ⟨10, 1, ⟨0, 10⟩, [10]⟩ ⟨⟨1, 10⟩, ⟨0, 0⟩, [10]⟩ [7]

/-- A `UserData` message from peer `20`, used to exercise the duplicate
suppression. -/
def c5msg : Msg := .userData ⟨20, 1, ⟨0, 10⟩, [20]⟩ ⟨⟨1, 20⟩, ⟨0, 0⟩, [20]⟩ [9]

/-- Hub `10` after receiving `c5msg` once: its id is now in the seen filter. -/
def c5hub : Hub := (onRecv (initHub 10) c5msg []).1

/-- A `UserData` message whose id `(3,5)` lies below `c2hub3`'s committed
id `(3,20)`. -/
def c8msgUser : Msg := .userData ⟨5, 3, ⟨0, 5⟩, [5]⟩ ⟨⟨3, 5⟩, ⟨0, 0⟩, [5]⟩ [4]

/-! Helper lemmas. -/

theorem MessageId.lt_trans {a b c : MessageId} (h1 : a.Lt b) (h2 : b.Lt c) : a.Lt c := by
  rcases a with ⟨t1, p1⟩; rcases b with ⟨t2, p2⟩; rcases c with ⟨t3, p3⟩
  simp only [MessageId.Lt] at *
  omega

theorem MessageId.lt_asymm {a b : MessageId} (h1 : a.Lt b) : ¬ b.Lt a := by
  rcases a with ⟨t1, p1⟩; rcases b with ⟨t2, p2⟩
  simp only [MessageId.Lt] at *
  omega

theorem MessageId.ne_of_gt {a b : MessageId} (h1 : b.Lt a) : a ≠ b := by
  rcases a with ⟨t1, p1⟩; rcases b with ⟨t2, p2⟩
  simp only [MessageId.Lt, ne_eq, MessageId.mk.injEq] at *
  omega

theorem MessageId.le_refl (a : MessageId) : a.Le a := Or.inr rfl

theorem MessageId.le_of_lt {a b : MessageId} (h1 : a.Lt b) : a.Le b := Or.inl h1

theorem MessageId.le_of_le_of_lt {a b c : MessageId} (h1 : a.Le b) (h2 : b.Lt c) : a.Le c := by
  rcases h1 with h1 | rfl
  · exact Or.inl (MessageId.lt_trans h1 h2)
  · exact Or.inl h2

theorem MessageId.le_trans {a b c : MessageId} (h1 : a.Le b) (h2 : b.Le c) : a.Le c := by
  rcases h2 with h2 | rfl
  · exact MessageId.le_of_le_of_lt h1 h2
  · exact h1

theorem messageId_withVisited (m : Msg) (v : List Nat) :
    messageId (withVisited m v) = messageId m := by
  cases m <;> rfl

theorem originatorOf_withVisited (m : Msg) (v : List Nat) :
    originatorOf (withVisited m v) = originatorOf m := by
  cases m <;> rfl

theorem visitedOf_withVisited (m : Msg) (v : List Nat) :
    visitedOf (withVisited m v) = v := by
  cases m <;> rfl

theorem mem_insertSorted_self (x : Nat) (l : List Nat) : x ∈ insertSorted x l := by
  induction l with
  | nil => simp [insertSorted]
  | cons y ys ih =>
    by_cases h1 : x < y
    · simp [insertSorted, h1]
    · by_cases h2 : x = y
      · simp [insertSorted, h1, h2]
      · simp only [insertSorted, if_neg h1, if_neg h2]
        exact List.mem_cons_of_mem y ih

theorem recvPre_id (h : Hub) (m : Msg) : (recvPre h m).id = h.id := by
  unfold recvPre
  dsimp only
  split <;> rfl

theorem recvPre_log (h : Hub) (m : Msg) : (recvPre h m).log = h.log := by
  unfold recvPre
  dsimp only
  split <;> rfl

theorem recvPre_configs (h : Hub) (m : Msg) : (recvPre h m).configs = h.configs := by
  unfold recvPre
  dsimp only
  split <;> rfl

theorem lastEvent_cons_of_some {l : List Event} {cb : Event} (x : Event)
    (h : lastEvent l = some cb) : lastEvent (x :: l) = some cb := by
  cases l with
  | nil => simp [lastEvent] at h
  | cons y r => simpa [lastEvent] using h

theorem lastEvent_append_of_some {l2 : List Event} {cb : Event} (l1 : List Event)
    (h : lastEvent l2 = some cb) : lastEvent (l1 ++ l2) = some cb := by
  induction l1 with
  | nil => simpa using h
  | cons x r ih => exact lastEvent_cons_of_some x ih

theorem stepKind_drop (h : Hub) (fid : MessageId) (live : List Nat) (e : LogEntry)
    (hf : e.isFuse = true) (hlt : e.mid.Lt fid) (ha : ackedByQuorumLive e live = false) :
    stepKind h (some fid) live e = .drop := by
  simp [stepKind, hf, hlt, ha]

theorem stepKind_stop_gt (h : Hub) (fid : MessageId) (live : List Nat) (e : LogEntry)
    (hf : e.isFuse = true) (hgt : fid.Lt e.mid) :
    stepKind h (some fid) live e = .stop := by
  have h1 : ¬ e.mid.Lt fid := MessageId.lt_asymm hgt
  have h2 : e.mid ≠ fid := MessageId.ne_of_gt hgt
  simp [stepKind, hf, h1, h2]

theorem stepKind_stop_none (h : Hub) (live : List Nat) (e : LogEntry)
    (hf : e.isFuse = true) : stepKind h none live e = .stop := by
  simp [stepKind, hf]

theorem committed_not_in_fuseCallbackEvents (added removed : List Nat) (orc : List Bool)
    (mid : MessageId) : Event.committed mid ∉ (fuseCallbackEvents added removed orc).1 := by
  unfold fuseCallbackEvents
  dsimp only
  split
  · split
    · simp
    · simp
  · split
    · simp
    · split
      · simp
      · simp

theorem committed_not_in_commitDeliver (h : Hub) (e : LogEntry) (orc : List Bool)
    (mid : MessageId) : Event.committed mid ∉ (commitDeliver h e orc).2.1 := by
  unfold commitDeliver
  rcases e with ⟨emid, msg?, acks⟩
  rcases msg? with _ | m
  · simp
  · rcases m with ⟨hd, ad, t⟩ | ⟨hd, ad, d⟩ | ⟨hd, ad, a, i, x⟩ | ⟨hd, ad⟩
    · unfold onCommitFuse
      dsimp only
      split
      · exact committed_not_in_fuseCallbackEvents _ _ _ _
      · simp
    · dsimp only
      split
      · simp
      · simp
    · simp
    · simp

theorem committed_mem_walk (mid : MessageId) :
    ∀ (es : List LogEntry) (h : Hub) (lcf : Option MessageId) (live : List Nat)
      (orc : List Bool),
      Event.committed mid ∈ (commitWalk h lcf live orc es).2.2.1 →
      mid ∈ es.map LogEntry.mid := by
  intro es
  induction es with
  | nil =>
    intro h lcf live orc hm
    simp [commitWalk] at hm
  | cons e rest ih =>
    intro h lcf live orc hm
    rcases hsk : stepKind h lcf live e with _ | _ | _
    · rw [commitWalk, hsk] at hm
      simp at hm
    · rw [commitWalk, hsk] at hm
      simp only [List.mem_cons] at hm
      rcases hm with hm | hm
      · simp at hm
      · have := ih _ _ _ _ hm
        simp only [List.map_cons, List.mem_cons]
        exact Or.inr this
    · rw [commitWalk, hsk] at hm
      dsimp only at hm
      split at hm
      · dsimp only at hm
        simp only [List.mem_cons] at hm
        rcases hm with hm | hm
        · simp only [Event.committed.injEq] at hm
          simp [hm]
        · exact absurd hm (committed_not_in_commitDeliver _ _ _ _)
      · dsimp only at hm
        simp only [List.mem_cons, List.mem_append] at hm
        rcases hm with (hm | hm) | hm
        · simp only [Event.committed.injEq] at hm
          simp [hm]
        · exact absurd hm (committed_not_in_commitDeliver _ _ _ _)
        · have hr := ih _ _ _ _ hm
          simp only [List.map_cons, List.mem_cons]
          exact Or.inr hr

/-- C1: In every commit pass, with `F` the most recent committable fuse found
by the tail-first scan (`findLastCommittableFuse`, its quorum supplying the
live nodes as assembled by `commitPass`): a fuse entry `e` met by the
head-first walk while `F` exists with `e.id < F.id` and
`¬ e.acked_by_quorum(live_nodes)` is erased without delivery and
`last_committed` is set to `e.id` (the walk continues on the rest from
`dropTarget`, and no `committed` event for `e.id` is ever emitted); a fuse
with `e.id > F.id` stops the walk with the state and log untouched; and when
no committable fuse exists the walk stops at the first fuse entry. -/
theorem c1_commit_walk_fuse_cases (h : Hub) (live : List Nat) (orc : List Bool)
    (e : LogEntry) (rest : List LogEntry) (fid : MessageId) (hf : e.isFuse = true) :
    (MessageId.Lt e.mid fid → ackedByQuorumLive e live = false →
      commitWalk h (some fid) live orc (e :: rest) =
        ((commitWalk (dropTarget h e) (some fid) live orc rest).1,
         (commitWalk (dropTarget h e) (some fid) live orc rest).2.1,
         Event.dropped e.mid :: (commitWalk (dropTarget h e) (some fid) live orc rest).2.2.1,
         (commitWalk (dropTarget h e) (some fid) live orc rest).2.2.2)) ∧
    (MessageId.Lt e.mid fid → ackedByQuorumLive e live = false →
      e.mid ∉ rest.map LogEntry.mid →
      Event.committed e.mid ∉ (commitWalk h (some fid) live orc (e :: rest)).2.2.1) ∧
    (MessageId.Lt fid e.mid →
      commitWalk h (some fid) live orc (e :: rest) = (h, e :: rest, [], orc, false)) ∧
    (commitWalk h none live orc (e :: rest) = (h, e :: rest, [], orc, false)) := by
  refine ⟨?_, ?_, ?_, ?_⟩
  · intro hlt ha
    rw [commitWalk, stepKind_drop h fid live e hf hlt ha]
  · intro hlt ha hnm hmem
    rw [commitWalk, stepKind_drop h fid live e hf hlt ha] at hmem
    dsimp only at hmem
    simp only [List.mem_cons] at hmem
    rcases hmem with hmem | hmem
    · simp at hmem
    · exact hnm (committed_mem_walk e.mid rest _ _ _ _ hmem)
  · intro hgt
    rw [commitWalk, stepKind_stop_gt h fid live e hf hgt]
  · rw [commitWalk, stepKind_stop_none h live e hf]

/-- Concrete instantiation of `c1_commit_walk_fuse_cases`: the stale fuse
entry `c1entry` is dropped below a committable fuse at `(4,20)`, never
emits a `committed` event, and stops the walk when it lies above the
committable fuse at `(1,1)` or when no committable fuse exists. -/
theorem c1_witness :
    (commitWalk (initHub 10) (some ⟨4, 20⟩) [10, 20] [] [c1entry] =
      ((commitWalk (dropTarget (initHub 10) c1entry) (some ⟨4, 20⟩) [10, 20] [] []).1,
       (commitWalk (dropTarget (initHub 10) c1entry) (some ⟨4, 20⟩) [10, 20] [] []).2.1,
       Event.dropped c1entry.mid ::
         (commitWalk (dropTarget (initHub 10) c1entry) (some ⟨4, 20⟩) [10, 20] [] []).2.2.1,
       (commitWalk (dropTarget (initHub 10) c1entry) (some ⟨4, 20⟩) [10, 20] [] []).2.2.2)) ∧
    (Event.committed c1entry.mid ∉
      (commitWalk (initHub 10) (some ⟨4, 20⟩) [10, 20] [] [c1entry]).2.2.1) ∧
    (commitWalk (initHub 10) (some ⟨1, 1⟩) [10, 20] [] [c1entry] =
      (initHub 10, [c1entry], [], [], false)) ∧
    (commitWalk (initHub 10) none [10, 20] [] [c1entry] =
      (initHub 10, [c1entry], [], [], false)) := by
  refine ⟨?_, ?_, ?_, ?_⟩
  · exact (c1_commit_walk_fuse_cases (initHub 10) [10, 20] [] c1entry [] ⟨4, 20⟩
      (by decide)).1 (by decide) (by decide)
  · exact (c1_commit_walk_fuse_cases (initHub 10) [10, 20] [] c1entry [] ⟨4, 20⟩
      (by decide)).2.1 (by decide) (by decide) (by decide)
  · exact (c1_commit_walk_fuse_cases (initHub 10) [10, 20] [] c1entry [] ⟨1, 1⟩
      (by decide)).2.2.1 (by decide)
  · exact (c1_commit_walk_fuse_cases (initHub 10) [10, 20] [] c1entry [] ⟨1, 1⟩
      (by decide)).2.2.2

theorem foldl_purge_log (l : List Nat) : ∀ (acc : Hub),
    (l.foldl
      (fun acc r =>
        { acc with
          seen := forgetMessagesFromUser r acc.seen
          nodes := acc.nodes.filter (fun q => decide (q.1 ≠ r)) }) acc).log = acc.log := by
  induction l with
  | nil => intro acc; rfl
  | cons x xs ih => intro acc; exact (ih _).trans rfl

theorem onCommitFuse_log (h : Hub) (e : LogEntry) (orc : List Bool) :
    (onCommitFuse h e orc).1.log = h.log := by
  unfold onCommitFuse
  dsimp only
  split
  · exact (foldl_purge_log _ _).trans rfl
  · rfl

theorem commitDeliver_log (h : Hub) (e : LogEntry) (orc : List Bool) :
    (commitDeliver h e orc).1.log = h.log := by
  unfold commitDeliver
  rcases e with ⟨emid, msg?, acks⟩
  rcases msg? with _ | m
  · rfl
  · rcases m with ⟨hd, ad, t⟩ | ⟨hd, ad, d⟩ | ⟨hd, ad, a, i, x⟩ | ⟨hd, ad⟩
    · exact onCommitFuse_log _ _ _
    · dsimp only
      split
      · rfl
      · rfl
    · rfl
    · rfl

theorem commitTarget_lastCommitted (h : Hub) (e : LogEntry) :
    (commitTarget h e).log.lastCommitted = e.mid := rfl

theorem walk_lastCommitted_mono :
    ∀ (es : List LogEntry) (h : Hub) (lcf : Option MessageId) (live : List Nat)
      (orc : List Bool),
      List.Pairwise (fun a b => MessageId.Lt a.mid b.mid) es →
      (∀ e ∈ es, MessageId.Lt h.log.lastCommitted e.mid) →
      MessageId.Le h.log.lastCommitted ((commitWalk h lcf live orc es).1.log.lastCommitted) := by
  intro es
  induction es with
  | nil =>
    intro h lcf live orc _ _
    rw [commitWalk]
    exact MessageId.le_refl _
  | cons e rest ih =>
    intro h lcf live orc hp hg
    have hpe : ∀ b ∈ rest, MessageId.Lt e.mid b.mid := (List.pairwise_cons.mp hp).1
    have hpr := (List.pairwise_cons.mp hp).2
    have hge : MessageId.Lt h.log.lastCommitted e.mid := hg e (List.mem_cons_self e rest)
    rcases hsk : stepKind h lcf live e with _ | _ | _
    · rw [commitWalk, hsk]
      exact MessageId.le_refl _
    · rw [commitWalk, hsk]
      dsimp only
      have h1 := ih (dropTarget h e) lcf live orc hpr (fun b hb => hpe b hb)
      exact MessageId.le_trans (MessageId.le_of_lt hge) h1
    · rw [commitWalk, hsk]
      dsimp only
      split
      · have hlg : (commitDeliver (commitTarget h e) e orc).1.log.lastCommitted = e.mid := by
          rw [commitDeliver_log, commitTarget_lastCommitted]
        rw [hlg]
        exact MessageId.le_of_lt hge
      · have hlg : (commitDeliver (commitTarget h e) e orc).1.log.lastCommitted = e.mid := by
          rw [commitDeliver_log, commitTarget_lastCommitted]
        have h1 := ih (commitDeliver (commitTarget h e) e orc).1
          (if lcf = some e.mid then none else lcf) live
          (commitDeliver (commitTarget h e) e orc).2.2.1 hpr
          (by intro b hb; rw [hlg]; exact hpe b hb)
        rw [hlg] at h1
        exact MessageId.le_trans (MessageId.le_of_lt hge) h1

/-- C2 (amended): `last_committed` does not decrease across a commit pass
provided every pending entry's id exceeds it — the invariant the non-fuse
insertion path maintains.  `add_log_entry` however admits fuse entries with
ids at or below `last_committed`, and erasing or committing such an entry
moves `last_committed` backwards; see the counterexample. -/
theorem c2_last_committed_monotone (h : Hub) (orc : List Bool)
    (hp : List.Pairwise (fun a b => MessageId.Lt a.mid b.mid) h.log.entries)
    (hg : ∀ e ∈ h.log.entries, MessageId.Lt h.log.lastCommitted e.mid) :
    MessageId.Le h.log.lastCommitted ((commitPass h orc).1.log.lastCommitted) := by
  unfold commitPass
  dsimp only
  exact walk_lastCommitted_mono h.log.entries h _ _ orc hp hg

/-- Concrete instantiation of `c2_last_committed_monotone` at `c2hub1`,
whose single pending entry lies above `last_committed`. -/
theorem c2_monotone_witness :
    MessageId.Le c2hub1.log.lastCommitted ((commitPass c2hub1 []).1.log.lastCommitted) := by
  exact c2_last_committed_monotone c2hub1 [] (by decide) (by decide)

/-- C2 counterexample: in the reachable run `c2hub0 → … → c2hub5` (built
from `initHub` by `fuseHandshake` and `onRecv` alone), the reception of
`c2msgFuse4` drops the stale fuse `(3,5)` and assigns
`last_committed = (3,5)` although it was `(3,20)` before the operation:
`last_committed` is not monotone. -/
theorem c2_counterexample :
    c2hub4.log.lastCommitted = ⟨3, 20⟩ ∧
    c2hub5 = (onRecv c2hub4 c2msgFuse4 []).1 ∧
    c2hub5.log.lastCommitted = ⟨3, 5⟩ ∧
    MessageId.Lt c2hub5.log.lastCommitted c2hub4.log.lastCommitted := by
  exact ⟨by decide, rfl, by decide, by decide⟩

/-- C3 counterexample: a not-yet-seen message originated by the local peer
is dropped, but only after its id has been inserted into the seen filter and
the local clock advanced — the seen filter and timestamp do not stay
unchanged as claimed. -/
theorem c3_counterexample :
    originatorOf c3msg = (initHub 10).id ∧
    seenIsIn (initHub 10).seen (messageId c3msg) = false ∧
    seenIsIn ((onRecv (initHub 10) c3msg []).1).seen (messageId c3msg) = true ∧
    (initHub 10).timeStamp = 0 ∧
    ((onRecv (initHub 10) c3msg []).1).timeStamp = 1 := by
  exact ⟨by decide, by decide, by decide, by decide, by decide⟩

/-- C3 (amended): a received message originated by self is dropped before
any rebroadcast, any log or ack mutation, any delivery and any config
change — the reception reduces exactly to the `recvPre` bookkeeping (seen
filter insertion, clock advance, placeholder peer creation if the
originator is absent) with no events; the log and configurations are left
unchanged. -/
theorem c3_self_drop_amended (h : Hub) (m : Msg) (orc : List Bool)
    (hop : originatorOf m = h.id)
    (hns : seenIsIn h.seen (messageId m) = false) :
    onRecv h m orc = (recvPre h (withSelfVisited h m), [], orc, false) ∧
    (recvPre h (withSelfVisited h m)).log = h.log ∧
    (recvPre h (withSelfVisited h m)).configs = h.configs := by
  refine ⟨?_, recvPre_log _ _, recvPre_configs _ _⟩
  unfold onRecv
  simp only [withSelfVisited, messageId_withVisited, originatorOf_withVisited, hns, hop]
  simp

/-- Concrete instantiation of `c3_self_drop_amended` at hub `10` receiving
its own `c3msg`. -/
theorem c3_amended_witness :
    onRecv (initHub 10) c3msg [] =
      (recvPre (initHub 10) (withSelfVisited (initHub 10) c3msg), [], [], false) ∧
    (recvPre (initHub 10) (withSelfVisited (initHub 10) c3msg)).log = (initHub 10).log ∧
    (recvPre (initHub 10) (withSelfVisited (initHub 10) c3msg)).configs =
      (initHub 10).configs :=
  c3_self_drop_amended (initHub 10) c3msg [] (by decide) (by decide)

/-- C5: receiving a message whose id is already in the seen filter is a
no-op: `on_recv` returns at the `Seen.is_in` check with the hub unchanged,
no events (no rebroadcast, no ack, no delivery), and the oracle untouched. -/
theorem c5_duplicate_reception_idempotent (h : Hub) (m : Msg) (orc : List Bool)
    (hs : seenIsIn h.seen (messageId m) = true) :
    onRecv h m orc = (h, [], orc, false) := by
  unfold onRecv
  simp only [withSelfVisited, messageId_withVisited, hs]
  simp

/-- Concrete instantiation of `c5_duplicate_reception_idempotent`: the
second reception of `c5msg` changes nothing. -/
theorem c5_witness : onRecv c5hub c5msg [] = (c5hub, [], [], false) :=
  c5_duplicate_reception_idempotent c5hub c5msg [] (by decide)

theorem containsMid_insertEntry (e : LogEntry) :
    ∀ (es : List LogEntry), containsMid (insertEntry e es) e.mid = true := by
  intro es
  induction es with
  | nil => simp [insertEntry, containsMid]
  | cons e' r ih =>
    unfold insertEntry
    by_cases h1 : MessageId.Lt e.mid e'.mid
    · rw [if_pos h1]
      simp [containsMid]
    · rw [if_neg h1]
      by_cases h2 : e.mid = e'.mid
      · rw [if_pos h2]
        simp [containsMid, mergeEntry, h2]
      · rw [if_neg h2]
        simp only [containsMid, List.any_cons] at ih ⊢
        rw [ih]
        simp

/-- C8: `add_log_entry` applied to a message whose id is at or below
`last_committed` leaves the hub (in particular the log) unchanged when the
message is not a fuse, whereas a `Fuse` with such an id is still inserted:
an entry with its id exists in the log afterwards. -/
theorem c8_add_log_entry_guard (h : Hub) (m : Msg)
    (hle : MessageId.Le (messageId m) h.log.lastCommitted) :
    (isFuseMsg m = false → addLogEntry h m = h) ∧
    (isFuseMsg m = true →
      containsMid (addLogEntry h m).log.entries (messageId m) = true) := by
  constructor
  · intro hnf
    rcases m with ⟨hd, ad, t⟩ | ⟨hd, ad, d⟩ | ⟨hd, ad, a, i, x⟩ | ⟨hd, ad⟩
    · simp [isFuseMsg] at hnf
    · unfold addLogEntry
      rw [if_pos ⟨hle, rfl⟩]
    · unfold addLogEntry
      rw [if_pos ⟨hle, rfl⟩]
    · rfl
  · intro hf
    rcases m with ⟨hd, ad, t⟩ | ⟨hd, ad, d⟩ | ⟨hd, ad, a, i, x⟩ | ⟨hd, ad⟩
    · unfold addLogEntry
      rw [if_neg (fun hc => by simpa [isFuseMsg] using hc.2)]
      exact containsMid_insertEntry _ h.log.entries
    · simp [isFuseMsg] at hf
    · simp [isFuseMsg] at hf
    · simp [isFuseMsg] at hf

/-- Concrete instantiation of `c8_add_log_entry_guard` at `c2hub3`
(`last_committed = (3,20)`): the stale `UserData` `(3,5)` is rejected, the
stale fuse `(3,5)` is inserted. -/
theorem c8_witness :
    addLogEntry c2hub3 c8msgUser = c2hub3 ∧
    containsMid (addLogEntry c2hub3 c2msgStaleFuse).log.entries
      (messageId c2msgStaleFuse) = true := by
  constructor
  · exact (c8_add_log_entry_guard c2hub3 c8msgUser (by decide)).1 (by decide)
  · exact (c8_add_log_entry_guard c2hub3 c2msgStaleFuse (by decide)).2 (by decide)

/-- C6: in the handshake continuation of `fuse`, a decode failure yields
`connection_refused`, a protocol-version mismatch yields the
protocol-mismatch error, and a remote id equal to the local one yields
`already_connected`; in each case the socket-close event precedes the
completion event, the hub state is unchanged (no peer record, no log
entry) and no send event is produced. -/
theorem c6_fuse_handshake_errors (h : Hub) (orc : List Bool) (v hisId : Nat) :
    (fuseHandshake h false none orc =
      (h, [.closeSocket, .onFused (some .connectionRefused) 0], orc, false)) ∧
    (v ≠ NET_PROTOCOL_VERSION →
      fuseHandshake h false (some (v, hisId)) orc =
        (h, [.closeSocket, .onFused (some .noProtocolOption) 0], orc, false)) ∧
    (hisId = h.id →
      fuseHandshake h false (some (NET_PROTOCOL_VERSION, hisId)) orc =
        (h, [.closeSocket, .onFused (some .alreadyConnected) 0], orc, false)) := by
  refine ⟨rfl, ?_, ?_⟩
  · intro hv
    unfold fuseHandshake
    simp [hv]
  · intro hid
    unfold fuseHandshake
    simp [hid]

/-- Concrete instantiation of `c6_fuse_handshake_errors` at hub `10`: decode
failure, remote version `2`, and remote id `10`. -/
theorem c6_witness :
    (fuseHandshake (initHub 10) false none [] =
      (initHub 10, [.closeSocket, .onFused (some .connectionRefused) 0], [], false)) ∧
    (fuseHandshake (initHub 10) false (some (2, 20)) [] =
      (initHub 10, [.closeSocket, .onFused (some .noProtocolOption) 0], [], false)) ∧
    (fuseHandshake (initHub 10) false (some (NET_PROTOCOL_VERSION, 10)) [] =
      (initHub 10, [.closeSocket, .onFused (some .alreadyConnected) 0], [], false)) := by
  refine ⟨?_, ?_, ?_⟩
  · exact (c6_fuse_handshake_errors (initHub 10) [] 2 20).1
  · exact (c6_fuse_handshake_errors (initHub 10) [] 2 20).2.1 (by decide)
  · exact (c6_fuse_handshake_errors (initHub 10) [] 2 10).2.2 (by decide)

/-- C9: invoking a callback slot moves the stored function out, runs it, and
moves it back exactly when no `reset` happened during the call: with no
reset the stored function is unchanged, and when `reset` is called during
the invocation (any number of times, `g` last, including the empty
function), `g` is the stored function afterwards and the flag records the
rewrite. -/
theorem c9_callback_slot (F : Type) (s : CallbackSlot F) (g : Option F)
    (rs : List (Option F)) :
    ((s.invoke []).func = s.func ∧ (s.invoke []).wasReset = false) ∧
    ((s.invoke (rs ++ [g])).func = g ∧ (s.invoke (rs ++ [g])).wasReset = true) := by
  refine ⟨⟨rfl, rfl⟩, ?_, ?_⟩
  · unfold CallbackSlot.invoke
    dsimp only
    rw [List.foldl_append]
    simp [CallbackSlot.resetSlot]
  · unfold CallbackSlot.invoke
    dsimp only
    rw [List.foldl_append]
    simp [CallbackSlot.resetSlot]

/-- C10: an unreliable frame whose source id fails to decode or does not
belong to a known peer produces nothing: no forwarding and no
`on_receive_unreliable`. -/
theorem c10_unknown_source_dropped (h : Hub) (src? : Option Nat) (payload : List Nat)
    (targets : Nat → List Nat)
    (hbad : src? = none ∨ ∃ s, src? = some s ∧ nodesHas h s = false) :
    nodeReceivedUnreliableBroadcast h src? payload targets = [] := by
  rcases hbad with rfl | ⟨s, rfl, hs⟩
  · rfl
  · unfold nodeReceivedUnreliableBroadcast
    simp [hs]

/-- Concrete instantiation of `c10_unknown_source_dropped`: source `99` is
not in hub `10`'s peer table. -/
theorem c10_witness :
    nodeReceivedUnreliableBroadcast (initHub 10) (some 99) [1] (fun _ => [20]) = [] :=
  c10_unknown_source_dropped (initHub 10) (some 99) [1] (fun _ => [20])
    (Or.inr ⟨99, rfl, by decide⟩)

theorem mem_broadcastEvents (g : Hub) (mm : Msg) (p : Nat) (x : Msg) :
    Event.sendTo p x ∈ broadcastEvents g mm ↔
      (x = mm ∧ p ≠ g.id ∧ (∃ st, (p, st) ∈ g.nodes ∧ st.connected = true) ∧
       (visitedOf mm).contains p = false) := by
  unfold broadcastEvents
  rw [List.mem_filterMap]
  constructor
  · rintro ⟨⟨q, st⟩, hq, hf⟩
    dsimp only at hf
    split at hf
    · simp only [Option.some.injEq, Event.sendTo.injEq] at hf
      rename_i hc
      obtain ⟨hf1, hf2⟩ := hf
      subst hf1
      subst hf2
      exact ⟨rfl, hc.1, ⟨st, hq, hc.2.1⟩, hc.2.2⟩
    · simp at hf
  · rintro ⟨rfl, hne, ⟨st, hmem, hconn⟩, hvis⟩
    refine ⟨(p, st), hmem, ?_⟩
    dsimp only
    rw [if_pos ⟨hne, hconn, hvis⟩]

/-- C4: during `on_recv`, the local id is inserted into the message's
visited set before the rebroadcast (it is a member of the rebroadcast
message's visited set, and the event trace starts with the broadcast of that
updated message), and `broadcast` enqueues the message exactly to the
connected peers that are not self and not in the message's visited set — in
particular never to a peer that already forwarded it and never to self. -/
theorem c4_rebroadcast_targets (h : Hub) (m : Msg) (orc : List Bool)
    (hns : seenIsIn h.seen (messageId m) = false)
    (hop : originatorOf m ≠ h.id) :
    h.id ∈ visitedOf (withSelfVisited h m) ∧
    (∃ tail, (onRecv h m orc).2.1 =
      broadcastEvents (recvPre h (withSelfVisited h m)) (withSelfVisited h m) ++ tail) ∧
    (∀ (g : Hub) (mm : Msg) (p : Nat) (x : Msg),
      Event.sendTo p x ∈ broadcastEvents g mm ↔
        (x = mm ∧ p ≠ g.id ∧ (∃ st, (p, st) ∈ g.nodes ∧ st.connected = true) ∧
         (visitedOf mm).contains p = false)) := by
  refine ⟨?_, ?_, fun g mm p x => mem_broadcastEvents g mm p x⟩
  · unfold withSelfVisited
    rw [visitedOf_withVisited]
    exact mem_insertSorted_self _ _
  · unfold onRecv
    simp only [withSelfVisited, messageId_withVisited, originatorOf_withVisited]
    rw [if_neg (by simp [hns])]
    rw [if_neg hop]
    split
    · exact ⟨_, rfl⟩
    · exact ⟨_, (List.append_assoc _ _ _)⟩

/-- Concrete instantiation of `c4_rebroadcast_targets`: hub `10` (fused with
`20`) receives `c2msgUser` from `20`. -/
theorem c4_witness :
    c2hub1.id ∈ visitedOf (withSelfVisited c2hub1 c2msgUser) ∧
    (∃ tail, (onRecv c2hub1 c2msgUser []).2.1 =
      broadcastEvents (recvPre c2hub1 (withSelfVisited c2hub1 c2msgUser))
        (withSelfVisited c2hub1 c2msgUser) ++ tail) ∧
    (∀ (g : Hub) (mm : Msg) (p : Nat) (x : Msg),
      Event.sendTo p x ∈ broadcastEvents g mm ↔
        (x = mm ∧ p ≠ g.id ∧ (∃ st, (p, st) ∈ g.nodes ∧ st.connected = true) ∧
         (visitedOf mm).contains p = false)) :=
  c4_rebroadcast_targets c2hub1 c2msgUser [] (by decide) (by decide)

theorem fuseCallbackEvents_destroyed_last (added removed : List Nat) (orc : List Bool)
    (hd : (fuseCallbackEvents added removed orc).2.2 = true) :
    ∃ cb, lastEvent (fuseCallbackEvents added removed orc).1 = some cb ∧
      isCallbackEvent cb = true := by
  unfold fuseCallbackEvents at *
  dsimp only at hd ⊢
  by_cases ha : added.isEmpty = true
  · rw [if_pos ha] at hd ⊢
    by_cases hr : removed.isEmpty = true
    · rw [if_pos hr] at hd
      simp at hd
    · rw [if_neg hr]
      exact ⟨.onRemove removed, rfl, rfl⟩
  · rw [if_neg ha] at hd ⊢
    by_cases hp : (popOrc orc).1 = true
    · rw [if_pos hp]
      exact ⟨.onInsert added, rfl, rfl⟩
    · rw [if_neg hp] at hd ⊢
      by_cases hr : removed.isEmpty = true
      · rw [if_pos hr] at hd
        simp at hd
      · rw [if_neg hr]
        exact ⟨.onRemove removed, rfl, rfl⟩

theorem commitDeliver_destroyed_last (h : Hub) (e : LogEntry) (orc : List Bool)
    (hd : (commitDeliver h e orc).2.2.2 = true) :
    ∃ cb, lastEvent (commitDeliver h e orc).2.1 = some cb ∧
      isCallbackEvent cb = true := by
  unfold commitDeliver at *
  rcases e with ⟨emid, msg?, acks⟩
  rcases msg? with _ | m
  · simp at hd
  · rcases m with ⟨hdr, ad, t⟩ | ⟨hdr, ad, d⟩ | ⟨hdr, ad, a, i, x⟩ | ⟨hdr, ad⟩
    · unfold onCommitFuse at *
      dsimp only at hd ⊢
      by_cases hq : ackedByQuorum ⟨emid, some (Msg.fuse hdr ad t), acks⟩ = true
      · rw [if_pos hq] at hd ⊢
        exact fuseCallbackEvents_destroyed_last _ _ _ hd
      · rw [if_neg hq] at hd
        simp at hd
    · dsimp only at hd ⊢
      by_cases hn : nodesHas h hdr.originator = true
      · rw [if_pos hn]
        exact ⟨.onReceive hdr.originator d, rfl, rfl⟩
      · rw [if_neg hn] at hd
        simp at hd
    · simp at hd
    · simp at hd

theorem commitWalk_destroyed_last :
    ∀ (es : List LogEntry) (h : Hub) (lcf : Option MessageId) (live : List Nat)
      (orc : List Bool),
      (commitWalk h lcf live orc es).2.2.2.2 = true →
      ∃ cb, lastEvent (commitWalk h lcf live orc es).2.2.1 = some cb ∧
        isCallbackEvent cb = true := by
  intro es
  induction es with
  | nil =>
    intro h lcf live orc hd
    rw [commitWalk] at hd
    simp at hd
  | cons e rest ih =>
    intro h lcf live orc hd
    rcases hsk : stepKind h lcf live e with _ | _ | _
    · rw [commitWalk, hsk] at hd
      simp at hd
    · rw [commitWalk, hsk] at hd ⊢
      dsimp only at hd ⊢
      obtain ⟨cb, hcb, hcc⟩ := ih _ _ _ _ hd
      exact ⟨cb, lastEvent_cons_of_some _ hcb, hcc⟩
    · rw [commitWalk, hsk] at hd ⊢
      dsimp only at hd ⊢
      split at hd
      · rename_i hdes
        obtain ⟨cb, hcb, hcc⟩ := commitDeliver_destroyed_last _ _ _ hdes
        rw [if_pos hdes]
        exact ⟨cb, lastEvent_cons_of_some _ hcb, hcc⟩
      · rename_i hdes
        rw [if_neg hdes]
        obtain ⟨cb, hcb, hcc⟩ := ih _ _ _ _ hd
        refine ⟨cb, ?_, hcc⟩
        exact lastEvent_cons_of_some _ (lastEvent_append_of_some _ hcb)

/-- C7: whenever a commit pass reports that the hub was destroyed, the last
event of its trace is one of the application callbacks (`on_insert`,
`on_remove`, `on_receive`): the destruction flag is re-read right after
every callback and nothing further is done — no event of any kind follows
the destroying callback. -/
theorem c7_destroyed_stops_pass (h : Hub) (orc : List Bool)
    (hd : (commitPass h orc).2.2.2 = true) :
    ∃ cb, lastEvent (commitPass h orc).2.1 = some cb ∧ isCallbackEvent cb = true := by
  unfold commitPass at *
  dsimp only at hd ⊢
  exact commitWalk_destroyed_last _ _ _ _ _ hd

/-- Concrete instantiation of `c7_destroyed_stops_pass`: committing
`c7entry` delivers `on_receive` to an application callback that destroys the
hub; the trace ends at that callback. -/
theorem c7_witness :
    ∃ cb, lastEvent (commitPass c7hub [true]).2.1 = some cb ∧
      isCallbackEvent cb = true :=
  c7_destroyed_stops_pass c7hub [true] (by decide)

end Club
